import Mathlib

/-!
Verification of the FinScraper application (src/main.py).

The development shallowly embeds the three pieces of logic the
specification describes: the watchlist store (load_tickers,
save_tickers, the add handler fetch_data, clear_tickers and the
startup sequence), the record extractor (scrape_finviz_and_fill) and
the exporter (export_to_xlsx).

Python strings are modelled as lists of characters wherever string
algorithms matter (the watchlist file handling), and as Lean strings
elsewhere.  Python dicts of strings are modelled as association lists
with insertion-order semantics: updating an existing key keeps its
position, inserting a fresh key appends.  Fallible upstream calls
(the HTTP fetch, the balance-sheet query, the price-history query)
are modelled as Except values supplied through an environment record.
-/

namespace FinScraper

/-! ## Python string primitives over lists of characters -/

/-- Characters stripped by the Python str.strip method. -/
def isPySpace (c : Char) : Bool :=
  c = ' ' || c = '\t' || c = '\n' || c = '\r' || c = '\x0B' || c = '\x0C'

/-- Python str.strip: drop whitespace from both ends. -/
def pyStrip (s : List Char) : List Char :=
  ((s.dropWhile isPySpace).reverse.dropWhile isPySpace).reverse

/-- The right half of str.strip: drop whitespace from the end. -/
def stripBack (s : List Char) : List Char :=
  (s.reverse.dropWhile isPySpace).reverse

/-- Python str.upper restricted to ASCII, as used on ticker symbols. -/
def pyUpper (s : List Char) : List Char :=
  s.map Char.toUpper

/-- Python str.splitlines: split on line boundaries, treating a CRLF
pair as a single boundary, with no trailing empty line. -/
def pySplitlines : List Char → List (List Char)
  | [] => []
  | '\n' :: rest => [] :: pySplitlines rest
  | '\r' :: '\n' :: rest => [] :: pySplitlines rest
  | '\r' :: rest => [] :: pySplitlines rest
  | c :: rest =>
    match pySplitlines rest with
    | [] => [[c]]
    | l :: ls => (c :: l) :: ls

/-! ## Watchlist store (src/main.py lines 10-29, 148-163, 206-212, 446-452) -/

/-- One step of the load loop: normalise a line and append it when it
is non-blank and not already present. -/
def loadStep (acc : List (List Char)) (line : List Char) : List (List Char) :=
  let t := pyUpper (pyStrip line)
  if t ≠ [] ∧ t ∉ acc then acc ++ [t] else acc

/-- load_tickers: read the backing file (none models a missing file),
strip the whole content, split into lines, and fold each normalised
line into the current in-memory sequence. -/
def load_tickers (file : Option (List Char)) (cur : List (List Char)) :
    List (List Char) :=
  match file with
  | none => cur
  | some content => (pySplitlines (pyStrip content)).foldl loadStep cur

/-- save_tickers: the file content written for a ticker sequence, one
symbol per line with a trailing newline each. -/
def save_tickers (l : List (List Char)) : List Char :=
  l.foldr (fun t acc => t ++ '\n' :: acc) []

/-- The observable state of the watchlist store: the in-memory ordered
sequence and the backing file content (none when the file is absent). -/
structure StoreState where
  mem : List (List Char)
  file : Option (List Char)
deriving DecidableEq

/-- Outcome reported by the add handler. -/
inductive AddResult where
  | added
  | alreadyPresent
  | emptyInput
deriving DecidableEq

/-- fetch_data: the add handler.  Normalises the entry, warns on blank
input, reports an already-present symbol, otherwise appends and saves. -/
def fetch_data (input : List Char) (s : StoreState) : StoreState × AddResult :=
  let t := pyUpper (pyStrip input)
  if t = [] then (s, AddResult.emptyInput)
  else if t ∈ s.mem then (s, AddResult.alreadyPresent)
  else ({ mem := s.mem ++ [t], file := some (save_tickers (s.mem ++ [t])) },
        AddResult.added)

/-- clear_tickers: empty the sequence and rewrite the file. -/
def clear_tickers (_s : StoreState) : StoreState :=
  { mem := [], file := some (save_tickers []) }

/-- The load operation at the store level: it only mutates memory,
the backing file is read, never written. -/
def op_load (s : StoreState) : StoreState :=
  { mem := load_tickers s.file s.mem, file := s.file }

/-- The persist operation at the store level (save_tickers). -/
def op_persist (s : StoreState) : StoreState :=
  { mem := s.mem, file := some (save_tickers s.mem) }

/-- The seed ticker appended at startup. -/
def aapl : List Char := ['A', 'A', 'P', 'L']

/-- The startup sequence (src/main.py lines 446-452): load the
persisted tickers, then append and persist the seed exactly when it
is absent from the loaded sequence. -/
def startup (file : Option (List Char)) : StoreState :=
  let mem := load_tickers file []
  if aapl ∈ mem then { mem := mem, file := file }
  else { mem := mem ++ [aapl], file := some (save_tickers (mem ++ [aapl])) }

/-- Consistency between memory and file: the file holds exactly the
in-memory symbols, one per line, in order. -/
def consistent (s : StoreState) : Prop :=
  s.file = some (save_tickers s.mem)

/-- Characters of a ticker symbol: uppercase alphanumeric, per the
data model of the specification. -/
def isTickerChar (c : Char) : Bool :=
  c.isUpper || c.isDigit

/-- A well-formed ticker symbol: non-blank, uppercase alphanumeric. -/
def validTicker (t : List Char) : Prop :=
  t ≠ [] ∧ ∀ c ∈ t, isTickerChar c = true

/-- The symbols joined by single newlines, with no trailing newline:
the value str.strip leaves of the saved file. -/
def joinNL : List (List Char) → List Char
  | [] => []
  | [t] => t
  | t :: rest => t ++ '\n' :: joinNL rest

/-! ## Python dicts of strings (insertion-order association lists) -/

/-- A Python dict from strings to strings, in insertion order. -/
abbrev Dict := List (String × String)

/-- Assignment d[k] = v: update the value in place when the key
exists, append a fresh binding otherwise. -/
def dictInsert (d : Dict) (k v : String) : Dict :=
  if d.any (fun p => p.1 == k) then
    d.map (fun p => if p.1 == k then (k, v) else p)
  else d ++ [(k, v)]

/-- Lookup d.get(k, dflt). -/
def dictGet (d : Dict) (k dflt : String) : String :=
  match d.find? (fun p => p.1 == k) with
  | some p => p.2
  | none => dflt

/-- Build a dict from a pair sequence by repeated assignment. -/
def buildDict (ps : List (String × String)) : Dict :=
  ps.foldl (fun d p => dictInsert d p.1 p.2) []

/-! ## Record extractor (src/main.py lines 31-146) -/

/-- The snapshot-table cell pairing: the loop over indices 0, 2, 4, ...
pairing each even-indexed cell with its successor, the trailing label
of an odd-length sequence getting the sentinel. -/
def pairCells : List String → List (String × String)
  | [] => []
  | [l] => [(l, "N/A")]
  | l :: v :: rest => (l, v) :: pairCells rest

/-- A balance-sheet cell: the isinstance check distinguishes numbers
from everything else, which is rendered with str(). -/
inductive BSVal where
  | num (n : Int)
  | text (s : String)

/-- Group a reversed digit run into threes, comma-separated. -/
def commaGroup : List Char → List Char
  | a :: b :: c :: rest@(_ :: _) => a :: b :: c :: ',' :: commaGroup rest
  | l => l

/-- Python format spec {v:,} for an integer: thousands separators. -/
def fmtThousands (n : Int) : String :=
  (if n < 0 then "-" else "") ++
    String.mk (commaGroup (Nat.toDigits 10 n.natAbs).reverse).reverse

/-- The rendering applied to a balance-sheet cell. -/
def formatBSVal : BSVal → String
  | BSVal.num n => fmtThousands n
  | BSVal.text s => s

/-- Round to the nearest integer, ties to the even integer. -/
def roundHalfEven (q : ℚ) : Int :=
  let f := ⌊q⌋
  if q - f < 1 / 2 then f
  else if q - f > 1 / 2 then f + 1
  else if f % 2 = 0 then f else f + 1

/-- Python format spec {v:.2f}: two decimal places. -/
def fmt2dp (q : ℚ) : String :=
  let cents := roundHalfEven (q * 100)
  let mag := cents.natAbs
  (if cents < 0 then "-" else "") ++ toString (mag / 100) ++ "." ++
    (if mag % 100 < 10 then "0" else "") ++ toString (mag % 100)

/-- The observable content of the fetched quote document: the snapshot
table cells when the table is found, and the three structurally
located fragments (company heading, sector links, price element). -/
structure FinvizDoc where
  snapshotCells : Option (List String)
  companyTag : Option String
  sectorLinks : Option (List String)
  priceTag : Option String

/-- The upstream world one extraction runs against: the quote document
and response status, the balance-sheet query outcome (rows of label
and most-recent-period value) and the 5-year close history outcome. -/
structure ScrapeEnv where
  doc : FinvizDoc
  responseOk : Bool
  balSheet : Except Unit (List (String × BSVal))
  hist5y : Except Unit (List ℚ)

/-- The desired_fields table of src/main.py lines 40-60, in source
order: record field name paired with its snapshot label, none for the
fields resolved elsewhere. -/
def desired_fields : List (String × Option String) :=
  [("Company", none), ("Sector", none), ("Price", none), ("Change 5Y", none),
   ("Dividends", some "Dividend Est."), ("Dividend TTM", some "Dividend TTM"),
   ("EPS", some "EPS (ttm)"), ("EPS Next Y, %", some "EPS next Y"),
   ("EPS Next 5Y, %", some "EPS next 5Y"), ("Revenue", some "Sales"),
   ("Revenue 5Y growth", some "Sales past 5Y"),
   ("Oper. Income", some "Oper. Margin"), ("Net Income", some "Profit Margin"),
   ("ROA", some "ROA"), ("ROE", some "ROE"), ("ROI", some "ROI"),
   ("P/E", some "P/E"), ("P/S", some "P/S"), ("P/B", some "P/B")]

/-- The loop over desired_fields: skip the three directly resolved
fields, map a missing label to the sentinel, otherwise look the label
up in the snapshot mapping with the sentinel as default. -/
def fillFields (result : Dict) (field_values : Dict) : Dict :=
  desired_fields.foldl (fun r fp =>
    if fp.1 == "Company" || fp.1 == "Sector" || fp.1 == "Price" then r
    else match fp.2 with
      | none => dictInsert r fp.1 "N/A"
      | some lbl => dictInsert r fp.1 (dictGet field_values lbl "N/A")) result

/-- The balance-sheet section (lines 104-131): an exception or an
empty sheet degrades both fields to the sentinel; otherwise each row
is looked up by label and formatted, a missing row degrading only its
own field. -/
def applyBalance (r : Dict) (bal : Except Unit (List (String × BSVal))) : Dict :=
  match bal with
  | Except.error _ =>
    dictInsert (dictInsert r "Total Assets" "N/A") "Total Liabilities" "N/A"
  | Except.ok rows =>
    if rows.isEmpty then
      dictInsert (dictInsert r "Total Assets" "N/A") "Total Liabilities" "N/A"
    else
      let r1 := match rows.find? (fun p => p.1 == "Total Assets") with
        | some p => dictInsert r "Total Assets" (formatBSVal p.2)
        | none => dictInsert r "Total Assets" "N/A"
      match rows.find? (fun p => p.1 == "Total Liabilities Net Minority Interest") with
      | some p => dictInsert r1 "Total Liabilities" (formatBSVal p.2)
      | none => dictInsert r1 "Total Liabilities" "N/A"

/-- The 5-year change section (lines 133-144): an exception or an
empty history degrades to the sentinel, otherwise the percent change
between the first and last close, rendered to two decimals with a
trailing percent sign. -/
def applyHist (r : Dict) (hist : Except Unit (List ℚ)) : Dict :=
  match hist with
  | Except.error _ => dictInsert r "Change 5Y" "N/A"
  | Except.ok h =>
    if h.isEmpty then dictInsert r "Change 5Y" "N/A"
    else
      let start_price := h.headD 0
      let end_price := h.getLastD 0
      dictInsert r "Change 5Y"
        (fmt2dp ((end_price - start_price) / start_price * 100) ++ "%")

/-- The snapshot label-value mapping (local field_values, lines 62-69):
empty when the table is absent, otherwise the dict built from the
paired cells. -/
def fieldValuesOf (doc : FinvizDoc) : Dict :=
  match doc.snapshotCells with
  | some tds => buildDict (pairCells tds)
  | none => []

/-- The company heading text (local company_name, lines 71-73). -/
def companyNameOf (doc : FinvizDoc) : String :=
  match doc.companyTag with
  | some s => s
  | none => "N/A"

/-- The sector value (local sector, lines 75-81): the first link of
the breadcrumb container when present. -/
def sectorOf (doc : FinvizDoc) : String :=
  match doc.sectorLinks with
  | some (l :: _) => l
  | some [] => "N/A"
  | none => "N/A"

/-- The price element text (local price, lines 83-85). -/
def priceOf (doc : FinvizDoc) : String :=
  match doc.priceTag with
  | some s => s
  | none => "N/A"

/-- The record assembled once the document fetch has succeeded. -/
def extractRecord (ticker : String) (env : ScrapeEnv) : Dict :=
  let field_values := fieldValuesOf env.doc
  let company_name := companyNameOf env.doc
  let result : Dict :=
    [("Ticker", ticker),
     ("Company", if company_name == "" then "N/A" else company_name),
     ("Sector", sectorOf env.doc),
     ("Price", priceOf env.doc)]
  applyHist (applyBalance (fillFields result field_values) env.balSheet)
    env.hist5y

/-- scrape_finviz_and_fill: a non-success response raises (the error
value), a success yields the assembled record. -/
def scrape_finviz_and_fill (ticker : String) (env : ScrapeEnv) :
    Except Unit Dict :=
  if env.responseOk then Except.ok (extractRecord ticker env)
  else Except.error ()

/-- The 22 column names, in schema order (src/main.py lines 237-242). -/
def schema22 : List String :=
  ["Ticker", "Company", "Sector", "Price", "Change 5Y", "Dividends",
   "Dividend TTM", "EPS", "EPS Next Y, %", "EPS Next 5Y, %", "Revenue",
   "Revenue 5Y growth", "Oper. Income", "Net Income", "ROA", "ROE", "ROI",
   "P/E", "P/S", "P/B", "Total Assets", "Total Liabilities"]

/-- The record shape after the desired_fields loop: the four direct
fields, then the sentinel Change 5Y, then the snapshot lookups. -/
def record20 (t comp sec pr : String) (fv : Dict) : Dict :=
  [("Ticker", t), ("Company", comp), ("Sector", sec), ("Price", pr),
   ("Change 5Y", "N/A"),
   ("Dividends", dictGet fv "Dividend Est." "N/A"),
   ("Dividend TTM", dictGet fv "Dividend TTM" "N/A"),
   ("EPS", dictGet fv "EPS (ttm)" "N/A"),
   ("EPS Next Y, %", dictGet fv "EPS next Y" "N/A"),
   ("EPS Next 5Y, %", dictGet fv "EPS next 5Y" "N/A"),
   ("Revenue", dictGet fv "Sales" "N/A"),
   ("Revenue 5Y growth", dictGet fv "Sales past 5Y" "N/A"),
   ("Oper. Income", dictGet fv "Oper. Margin" "N/A"),
   ("Net Income", dictGet fv "Profit Margin" "N/A"),
   ("ROA", dictGet fv "ROA" "N/A"),
   ("ROE", dictGet fv "ROE" "N/A"),
   ("ROI", dictGet fv "ROI" "N/A"),
   ("P/E", dictGet fv "P/E" "N/A"),
   ("P/S", dictGet fv "P/S" "N/A"),
   ("P/B", dictGet fv "P/B" "N/A")]

/-- The final record shape: record20 with the Change 5Y value updated
in place and the two balance-sheet fields appended. -/
def record22 (t comp sec pr c5 ta tl : String) (fv : Dict) : Dict :=
  [("Ticker", t), ("Company", comp), ("Sector", sec), ("Price", pr),
   ("Change 5Y", c5),
   ("Dividends", dictGet fv "Dividend Est." "N/A"),
   ("Dividend TTM", dictGet fv "Dividend TTM" "N/A"),
   ("EPS", dictGet fv "EPS (ttm)" "N/A"),
   ("EPS Next Y, %", dictGet fv "EPS next Y" "N/A"),
   ("EPS Next 5Y, %", dictGet fv "EPS next 5Y" "N/A"),
   ("Revenue", dictGet fv "Sales" "N/A"),
   ("Revenue 5Y growth", dictGet fv "Sales past 5Y" "N/A"),
   ("Oper. Income", dictGet fv "Oper. Margin" "N/A"),
   ("Net Income", dictGet fv "Profit Margin" "N/A"),
   ("ROA", dictGet fv "ROA" "N/A"),
   ("ROE", dictGet fv "ROE" "N/A"),
   ("ROI", dictGet fv "ROI" "N/A"),
   ("P/E", dictGet fv "P/E" "N/A"),
   ("P/S", dictGet fv "P/S" "N/A"),
   ("P/B", dictGet fv "P/B" "N/A"),
   ("Total Assets", ta), ("Total Liabilities", tl)]

/-- A concrete environment whose primary fetch fails. -/
def envFetchFail : ScrapeEnv :=
  ⟨⟨none, none, none, none⟩, false, Except.ok [], Except.ok []⟩

/-- A concrete environment where both enrichment queries fail. -/
def envEnrichFail : ScrapeEnv :=
  ⟨⟨none, none, none, none⟩, true, Except.error (), Except.error ()⟩

/-- A concrete fully-populated environment whose 5-year history runs
from a close of 100 to a close of 150. -/
def envFull : ScrapeEnv :=
  ⟨⟨some ["P/E", "12.3", "ROA"], some "Apple Inc.", some ["Technology"],
    some "123.45"⟩, true,
   Except.ok [("Total Assets", BSVal.num 1234567)], Except.ok [100, 150]⟩

/-! ## Exporter (src/main.py lines 214-279) -/

/-- What the export operation does: report an empty watchlist, report
that no extraction succeeded, or assemble the sheet rows. -/
inductive ExportOutcome where
  | noTickers
  | noData
  | written (rows : List (List String))
deriving DecidableEq

/-- The re-fetch loop of export_to_xlsx: extraction failures are
swallowed, successful records are collected in watchlist order. -/
def collectRecords (tickers : List String)
    (fetch : String → Except Unit Dict) : List Dict :=
  tickers.foldl (fun acc t =>
    match fetch t with
    | Except.ok d => acc ++ [d]
    | Except.error _ => acc) []

/-- export_to_xlsx: no sheet for an empty watchlist, no sheet when no
record survives, otherwise the header row followed by one row per
surviving record, each row listing the 22 fields in schema order. -/
def export_to_xlsx (tickers : List String)
    (fetch : String → Except Unit Dict) : ExportOutcome :=
  if tickers.isEmpty then ExportOutcome.noTickers
  else
    let records := collectRecords tickers fetch
    if records.isEmpty then ExportOutcome.noData
    else ExportOutcome.written
      (schema22 :: records.map (fun r => schema22.map (fun k => dictGet r k "N/A")))

/-! ## Record extractor lemmas -/

theorem fillFields_record20 (t comp sec pr : String) (fv : Dict) :
    fillFields [("Ticker", t), ("Company", comp), ("Sector", sec), ("Price", pr)] fv =
      record20 t comp sec pr fv := by
  simp [fillFields, desired_fields, dictInsert, record20]

theorem applyBalance_record20 (t comp sec pr : String) (fv : Dict)
    (bal : Except Unit (List (String × BSVal))) :
    ∃ ta tl, applyBalance (record20 t comp sec pr fv) bal =
        record22 t comp sec pr "N/A" ta tl fv ∧
      (∀ e, bal = Except.error e → ta = "N/A" ∧ tl = "N/A") := by
  cases bal with
  | error e =>
    refine ⟨"N/A", "N/A", ?_, fun e2 _ => ⟨rfl, rfl⟩⟩
    simp [applyBalance, dictInsert, record20, record22]
  | ok rows =>
    cases rows with
    | nil =>
      refine ⟨"N/A", "N/A", ?_, by simp⟩
      simp [applyBalance, dictInsert, record20, record22]
    | cons r rs =>
      cases hta : (r :: rs).find? (fun p => p.1 == "Total Assets") with
      | none =>
        cases htl : (r :: rs).find?
            (fun p => p.1 == "Total Liabilities Net Minority Interest") with
        | none =>
          refine ⟨"N/A", "N/A", ?_, by simp⟩
          simp [applyBalance, hta, htl, dictInsert, record20, record22]
        | some p =>
          refine ⟨"N/A", formatBSVal p.2, ?_, by simp⟩
          simp [applyBalance, hta, htl, dictInsert, record20, record22]
      | some p =>
        cases htl : (r :: rs).find?
            (fun p => p.1 == "Total Liabilities Net Minority Interest") with
        | none =>
          refine ⟨formatBSVal p.2, "N/A", ?_, by simp⟩
          simp [applyBalance, hta, htl, dictInsert, record20, record22]
        | some p2 =>
          refine ⟨formatBSVal p.2, formatBSVal p2.2, ?_, by simp⟩
          simp [applyBalance, hta, htl, dictInsert, record20, record22]

theorem applyHist_record22 (t comp sec pr ta tl : String) (fv : Dict)
    (hist : Except Unit (List ℚ)) :
    ∃ c5, applyHist (record22 t comp sec pr "N/A" ta tl fv) hist =
        record22 t comp sec pr c5 ta tl fv ∧
      (∀ e, hist = Except.error e → c5 = "N/A") ∧
      (hist = Except.ok [] → c5 = "N/A") ∧
      (∀ x xs, hist = Except.ok (x :: xs) →
        c5 = fmt2dp (((x :: xs).getLastD 0 - x) / x * 100) ++ "%") := by
  cases hist with
  | error e =>
    refine ⟨"N/A", ?_, by simp, by simp, by simp⟩
    simp [applyHist, dictInsert, record22]
  | ok h =>
    cases h with
    | nil =>
      refine ⟨"N/A", ?_, by simp, by simp, by simp⟩
      simp [applyHist, dictInsert, record22]
    | cons x xs =>
      refine ⟨fmt2dp (((x :: xs).getLastD 0 - x) / x * 100) ++ "%", ?_,
        by simp, by simp, ?_⟩
      · simp [applyHist, dictInsert, record22]
      · intro y ys hy
        have hxy := Except.ok.inj hy
        cases hxy
        rfl

theorem extractRecord_record22 (t : String) (env : ScrapeEnv) :
    ∃ c5 ta tl,
      extractRecord t env =
        record22 t
          (if companyNameOf env.doc == "" then "N/A" else companyNameOf env.doc)
          (sectorOf env.doc) (priceOf env.doc) c5 ta tl (fieldValuesOf env.doc) ∧
      (∀ e, env.balSheet = Except.error e → ta = "N/A" ∧ tl = "N/A") ∧
      (∀ e, env.hist5y = Except.error e → c5 = "N/A") ∧
      (env.hist5y = Except.ok [] → c5 = "N/A") ∧
      (∀ x xs, env.hist5y = Except.ok (x :: xs) →
        c5 = fmt2dp (((x :: xs).getLastD 0 - x) / x * 100) ++ "%") := by
  obtain ⟨ta, tl, hbal, hbprop⟩ :=
    applyBalance_record20 t
      (if companyNameOf env.doc == "" then "N/A" else companyNameOf env.doc)
      (sectorOf env.doc) (priceOf env.doc) (fieldValuesOf env.doc) env.balSheet
  obtain ⟨c5, hhist, hp1, hp2, hp3⟩ :=
    applyHist_record22 t
      (if companyNameOf env.doc == "" then "N/A" else companyNameOf env.doc)
      (sectorOf env.doc) (priceOf env.doc) ta tl (fieldValuesOf env.doc) env.hist5y
  refine ⟨c5, ta, tl, ?_, hbprop, hp1, hp2, hp3⟩
  show applyHist (applyBalance
      (fillFields [("Ticker", t),
        ("Company", if companyNameOf env.doc == "" then "N/A" else companyNameOf env.doc),
        ("Sector", sectorOf env.doc), ("Price", priceOf env.doc)]
        (fieldValuesOf env.doc)) env.balSheet) env.hist5y = _
  rw [fillFields_record20, hbal, hhist]

theorem record22_keys (t comp sec pr c5 ta tl : String) (fv : Dict) :
    (record22 t comp sec pr c5 ta tl fv).map Prod.fst = schema22 := rfl

theorem record22_get_ta (t comp sec pr c5 ta tl : String) (fv : Dict) :
    dictGet (record22 t comp sec pr c5 ta tl fv) "Total Assets" "" = ta := by
  simp [dictGet, record22]

theorem record22_get_tl (t comp sec pr c5 ta tl : String) (fv : Dict) :
    dictGet (record22 t comp sec pr c5 ta tl fv) "Total Liabilities" "" = tl := by
  simp [dictGet, record22]

theorem record22_get_c5 (t comp sec pr c5 ta tl : String) (fv : Dict) :
    dictGet (record22 t comp sec pr c5 ta tl fv) "Change 5Y" "" = c5 := by
  simp [dictGet, record22]

theorem record22_get_stable (t comp sec pr c5 ta tl c5x tax tlx : String)
    (fv : Dict) (k : String) (hk : k ∈ schema22)
    (hk3 : k ∉ (["Total Assets", "Total Liabilities", "Change 5Y"] : List String)) :
    dictGet (record22 t comp sec pr c5 ta tl fv) k "" =
    dictGet (record22 t comp sec pr c5x tax tlx fv) k "" := by
  simp only [schema22] at hk
  fin_cases hk <;> simp_all [dictGet, record22]

/-- C1: for every ticker, the extractor hard-fails exactly on a
non-success primary response (no record is produced), while a failing
balance-sheet query degrades only Total Assets and Total Liabilities
to the sentinel and a failing price-history query degrades only
Change 5Y to the sentinel; a complete 22-field record is still
produced, and every field outside those three is unaffected by the
outcomes of the two enrichment queries. -/
theorem extractor_failure_semantics (t : String) (env : ScrapeEnv) :
    (env.responseOk = false → scrape_finviz_and_fill t env = Except.error ()) ∧
    (env.responseOk = true →
      scrape_finviz_and_fill t env = Except.ok (extractRecord t env) ∧
      (extractRecord t env).map Prod.fst = schema22 ∧
      (∀ e, env.balSheet = Except.error e →
        dictGet (extractRecord t env) "Total Assets" "" = "N/A" ∧
        dictGet (extractRecord t env) "Total Liabilities" "" = "N/A") ∧
      (∀ e, env.hist5y = Except.error e →
        dictGet (extractRecord t env) "Change 5Y" "" = "N/A") ∧
      (∀ bal2 hist2 k, k ∈ schema22 →
        k ∉ (["Total Assets", "Total Liabilities", "Change 5Y"] : List String) →
        dictGet (extractRecord t env) k "" =
          dictGet (extractRecord t ⟨env.doc, env.responseOk, bal2, hist2⟩) k "")) := by
  obtain ⟨c5, ta, tl, heq, hb, he, -, -⟩ := extractRecord_record22 t env
  constructor
  · intro h
    simp [scrape_finviz_and_fill, h]
  · intro h
    refine ⟨by simp [scrape_finviz_and_fill, h], ?_, ?_, ?_, ?_⟩
    · rw [heq]
      exact record22_keys t _ _ _ c5 ta tl _
    · intro e hbe
      rw [heq, record22_get_ta, record22_get_tl]
      exact hb e hbe
    · intro e hhe
      rw [heq, record22_get_c5]
      exact he e hhe
    · intro bal2 hist2 k hk hk3
      obtain ⟨c5x, tax, tlx, heqx, -, -, -, -⟩ :=
        extractRecord_record22 t ⟨env.doc, env.responseOk, bal2, hist2⟩
      rw [heq, heqx]
      exact record22_get_stable t _ _ _ c5 ta tl c5x tax tlx _ k hk hk3

/-- C1 witness: with a failed primary fetch no record is produced,
and with failing enrichment queries the record exists with the three
enrichment fields degraded to the sentinel. -/
theorem extractor_failure_semantics_witness :
    scrape_finviz_and_fill "AAPL" envFetchFail = Except.error () ∧
    scrape_finviz_and_fill "AAPL" envEnrichFail =
      Except.ok (extractRecord "AAPL" envEnrichFail) ∧
    dictGet (extractRecord "AAPL" envEnrichFail) "Total Assets" "" = "N/A" ∧
    dictGet (extractRecord "AAPL" envEnrichFail) "Change 5Y" "" = "N/A" := by
  obtain ⟨h1, -⟩ := extractor_failure_semantics "AAPL" envFetchFail
  obtain ⟨-, h2⟩ := extractor_failure_semantics "AAPL" envEnrichFail
  obtain ⟨ha, -, hc, hd, -⟩ := h2 rfl
  exact ⟨h1 rfl, ha, (hc () rfl).1, hd () rfl⟩

/-- C2: whenever a record is returned, it has exactly the 22 schema
keys, in schema order, each key bound to a string value. -/
theorem record_schema_complete (t : String) (env : ScrapeEnv)
    (hok : env.responseOk = true) :
    ∃ r, scrape_finviz_and_fill t env = Except.ok r ∧
      r.map Prod.fst = schema22 ∧ ∀ k ∈ schema22, ∃ v, (k, v) ∈ r := by
  obtain ⟨c5, ta, tl, heq, -, -, -, -⟩ := extractRecord_record22 t env
  refine ⟨extractRecord t env, by simp [scrape_finviz_and_fill, hok], ?_, ?_⟩
  · rw [heq]
    exact record22_keys t _ _ _ c5 ta tl _
  · intro k hk
    have hkeys : (extractRecord t env).map Prod.fst = schema22 := by
      rw [heq]
      exact record22_keys t _ _ _ c5 ta tl _
    rw [← hkeys] at hk
    obtain ⟨p, hp, hfst⟩ := List.mem_map.mp hk
    subst hfst
    exact ⟨p.2, hp⟩

/-- C2 witness at a fully populated environment. -/
theorem record_schema_complete_witness :
    ∃ r, scrape_finviz_and_fill "AAPL" envFull = Except.ok r ∧
      r.map Prod.fst = schema22 ∧ ∀ k ∈ schema22, ∃ v, (k, v) ∈ r :=
  record_schema_complete "AAPL" envFull rfl

/-- C7: in every produced record, an empty 5-year history resolves
Change 5Y to the sentinel, and a non-empty history resolves it to the
percent change between first and last close, rendered to two decimal
places with a trailing percent sign. -/
theorem change5y_field (t : String) (env : ScrapeEnv)
    (hok : env.responseOk = true) :
    ∃ r, scrape_finviz_and_fill t env = Except.ok r ∧
      (env.hist5y = Except.ok [] → dictGet r "Change 5Y" "" = "N/A") ∧
      (∀ x xs, env.hist5y = Except.ok (x :: xs) →
        dictGet r "Change 5Y" "" =
          fmt2dp (((x :: xs).getLastD 0 - x) / x * 100) ++ "%") := by
  obtain ⟨c5, ta, tl, heq, -, -, h2, h3⟩ := extractRecord_record22 t env
  refine ⟨extractRecord t env, by simp [scrape_finviz_and_fill, hok], ?_, ?_⟩
  · intro hh
    rw [heq, record22_get_c5]
    exact h2 hh
  · intro x xs hh
    rw [heq, record22_get_c5]
    exact h3 x xs hh

/-- C7 witness: a history with first close 100 and last close 150
yields exactly the string with the 50.00 percent rendering. -/
theorem change5y_field_witness :
    ∃ r, scrape_finviz_and_fill "AAPL" envFull = Except.ok r ∧
      dictGet r "Change 5Y" "" = "50.00%" := by
  obtain ⟨r, hr, -, h⟩ := change5y_field "AAPL" envFull rfl
  refine ⟨r, hr, ?_⟩
  rw [h 100 [150] rfl]
  rw [show (([100, 150] : List ℚ).getLastD 0) = 150 from rfl]
  have harg : ((150 : ℚ) - 100) / 100 * 100 = 50 := by norm_num
  rw [harg]
  have hr5 : roundHalfEven ((50 : ℚ) * 100) = 5000 := by
    unfold roundHalfEven
    norm_num
  simp only [fmt2dp, hr5]
  norm_num
  decide

/-! ## Snapshot-table pairing lemmas -/

theorem find?_insert_self (d : Dict) (k v : String) :
    (dictInsert d k v).find? (fun p => p.1 == k) = some (k, v) := by
  induction d with
  | nil => simp [dictInsert]
  | cons p d ih =>
    by_cases hpk : p.1 == k
    · rw [dictInsert, if_pos (by simp [hpk])]
      simp only [List.map_cons, if_pos hpk]
      simp [List.find?_cons]
    · rw [dictInsert] at ih ⊢
      by_cases hd : d.any (fun q => q.1 == k)
      · rw [if_pos (by simp [List.any_cons, hd])]
        rw [if_pos hd] at ih
        simp only [List.map_cons, if_neg hpk]
        rw [List.find?_cons]
        simp only [Bool.not_eq_true] at hpk
        rw [hpk]
        exact ih
      · rw [if_neg (by simp [List.any_cons, hd, hpk])]
        rw [if_neg hd] at ih
        rw [List.cons_append, List.find?_cons]
        simp only [Bool.not_eq_true] at hpk
        rw [hpk]
        exact ih

theorem buildDict_concat_get (ps : List (String × String)) (k v dflt : String) :
    dictGet (buildDict (ps ++ [(k, v)])) k dflt = v := by
  rw [buildDict, List.foldl_append]
  simp only [List.foldl_cons, List.foldl_nil]
  rw [dictGet, find?_insert_self]

theorem pairCells_get (i : ℕ) (tds : List String) (h : 2 * i + 1 < tds.length) :
    (pairCells tds).get? i =
      some (tds.getD (2 * i) "", tds.getD (2 * i + 1) "") := by
  induction i generalizing tds with
  | zero =>
    rcases tds with - | ⟨l, - | ⟨v, rest⟩⟩
    · simp at h
    · simp at h
    · simp [pairCells]
  | succ i ih =>
    rcases tds with - | ⟨l, - | ⟨v, rest⟩⟩
    · simp at h
    · simp at h
    · have h2 : 2 * i + 1 < rest.length := by
        simp only [List.length_cons] at h
        omega
      have e1 : 2 * (i + 1) = 2 * i + 1 + 1 := by ring
      have e2 : 2 * (i + 1) + 1 = 2 * i + 1 + 1 + 1 := by ring
      show ((l, v) :: pairCells rest).get? (i + 1) = _
      rw [List.get?_cons_succ, ih rest h2, e2, e1]
      rw [List.getD_cons_succ, List.getD_cons_succ, List.getD_cons_succ,
        List.getD_cons_succ]

theorem pairCells_odd_last : ∀ (tds : List String), tds.length % 2 = 1 →
    ∃ ps, pairCells tds = ps ++ [(tds.getD (tds.length - 1) "", "N/A")] ∧
      ps.length = tds.length / 2
  | [], h => by simp at h
  | [l], _ => ⟨[], by simp [pairCells], by simp⟩
  | l :: v :: rest, h => by
    have hr : rest.length % 2 = 1 := by
      simp only [List.length_cons] at h
      omega
    obtain ⟨ps, h1, h2⟩ := pairCells_odd_last rest hr
    have hrne : rest ≠ [] := by
      intro he
      rw [he] at hr
      simp at hr
    obtain ⟨a, t, rfl⟩ : ∃ a t, rest = a :: t := by
      rcases rest with - | ⟨a, t⟩
      · exact absurd rfl hrne
      · exact ⟨a, t, rfl⟩
    refine ⟨(l, v) :: ps, ?_, ?_⟩
    · show (l, v) :: pairCells (a :: t) = _
      rw [h1, List.cons_append]
      have e3 : (l :: v :: a :: t).length - 1 = t.length + 1 + 1 := by
        simp only [List.length_cons]
        omega
      have e4 : (a :: t).length - 1 = t.length := by
        simp only [List.length_cons]
        omega
      rw [e3, e4, List.getD_cons_succ, List.getD_cons_succ]
    · simp only [List.length_cons] at h2 ⊢
      omega

/-- C9: for every odd-length snapshot cell sequence, the mapping loop
pairs each even-indexed cell with the cell after it, and the final
unpaired label resolves to the sentinel in the built mapping. -/
theorem snapshot_odd_cells (tds : List String) (h : tds.length % 2 = 1) :
    (∀ i, 2 * i + 1 < tds.length →
      (pairCells tds).get? i =
        some (tds.getD (2 * i) "", tds.getD (2 * i + 1) "")) ∧
    (pairCells tds).get? (tds.length / 2) =
      some (tds.getD (tds.length - 1) "", "N/A") ∧
    dictGet (buildDict (pairCells tds)) (tds.getD (tds.length - 1) "") "" =
      "N/A" := by
  obtain ⟨ps, hps, hlen⟩ := pairCells_odd_last tds h
  refine ⟨fun i hi => pairCells_get i tds hi, ?_, ?_⟩
  · rw [hps, ← hlen]
    exact List.get?_concat_length ps _
  · rw [hps]
    exact buildDict_concat_get ps _ "N/A" ""

/-- C9 witness: a three-cell snapshot table pairs the first two cells
and resolves the trailing label to the sentinel. -/
theorem snapshot_odd_cells_witness :
    (pairCells ["Index", "DJIA", "P/E"]).get? 0 = some ("Index", "DJIA") ∧
    (pairCells ["Index", "DJIA", "P/E"]).get? 1 = some ("P/E", "N/A") ∧
    dictGet (buildDict (pairCells ["Index", "DJIA", "P/E"])) "P/E" "" =
      "N/A" := by
  obtain ⟨h1, h2, h3⟩ := snapshot_odd_cells ["Index", "DJIA", "P/E"] rfl
  exact ⟨by simpa using h1 0 (by simp), by simpa using h2, by simpa using h3⟩

/-! ## Exporter lemmas -/

theorem collectRecords_filterMap (tickers : List String)
    (fetch : String → Except Unit Dict) :
    collectRecords tickers fetch =
      tickers.filterMap (fun t => (fetch t).toOption) := by
  suffices h : ∀ acc, tickers.foldl (fun acc t =>
      match fetch t with
      | Except.ok d => acc ++ [d]
      | Except.error _ => acc) acc =
      acc ++ tickers.filterMap (fun t => (fetch t).toOption) by
    simpa [collectRecords] using h []
  intro acc
  induction tickers generalizing acc with
  | nil => simp
  | cons t ts ih =>
    cases hf : fetch t with
    | ok d => simp [hf, ih, Except.toOption, List.filterMap_cons]
    | error e => simp [hf, ih, Except.toOption, List.filterMap_cons]

/-- C10: the export operation writes nothing on an empty watchlist
(reporting no tickers), writes nothing when every extraction fails
(reporting no data), and otherwise produces the 22-name header row
followed by one row per surviving record, in watchlist order. -/
theorem export_behaviour (tickers : List String)
    (fetch : String → Except Unit Dict) :
    (tickers = [] → export_to_xlsx tickers fetch = ExportOutcome.noTickers) ∧
    (tickers ≠ [] → (∀ t ∈ tickers, ∃ e, fetch t = Except.error e) →
      export_to_xlsx tickers fetch = ExportOutcome.noData) ∧
    (tickers ≠ [] → ∀ t0 ∈ tickers, ∀ d0, fetch t0 = Except.ok d0 →
      export_to_xlsx tickers fetch = ExportOutcome.written
        (schema22 :: (tickers.filterMap (fun t => (fetch t).toOption)).map
          (fun r => schema22.map (fun k => dictGet r k "N/A")))) := by
  refine ⟨?_, ?_, ?_⟩
  · intro h
    subst h
    simp [export_to_xlsx]
  · intro hne hall
    rw [export_to_xlsx, if_neg (by simpa [List.isEmpty_iff] using hne)]
    rw [collectRecords_filterMap]
    rw [if_pos]
    simp only [List.isEmpty_iff, List.filterMap_eq_nil]
    intro t ht
    obtain ⟨e, he⟩ := hall t ht
    simp [he, Except.toOption]
  · intro hne t0 ht0 d0 hf
    rw [export_to_xlsx, if_neg (by simpa [List.isEmpty_iff] using hne)]
    rw [collectRecords_filterMap]
    rw [if_neg]
    simp only [List.isEmpty_iff]
    intro hnil
    have : d0 ∈ tickers.filterMap (fun t => (fetch t).toOption) :=
      List.mem_filterMap.mpr ⟨t0, ht0, by simp [hf, Except.toOption]⟩
    rw [hnil] at this
    simp at this

/-- C10 witness: the three behaviours at concrete inputs. -/
theorem export_behaviour_witness :
    export_to_xlsx [] (fun _ => Except.error ()) = ExportOutcome.noTickers ∧
    export_to_xlsx ["A"] (fun _ => Except.error ()) = ExportOutcome.noData ∧
    export_to_xlsx ["A"] (fun _ => Except.ok [("Ticker", "A")]) =
      ExportOutcome.written (schema22 ::
        [schema22.map (fun k => dictGet [("Ticker", "A")] k "N/A")]) := by
  refine ⟨(export_behaviour [] _).1 rfl, ?_, ?_⟩
  · exact (export_behaviour ["A"] _).2.1 (by simp)
      (fun t _ => ⟨(), rfl⟩)
  · have h := (export_behaviour ["A"]
      (fun _ => Except.ok [("Ticker", "A")])).2.2 (by simp) "A" (by simp)
      [("Ticker", "A")] rfl
    simpa [Except.toOption] using h

/-! ## Watchlist string lemmas -/

theorem tickerChar_toUpper (c : Char) (h : isTickerChar c = true) :
    c.toUpper = c := by
  rw [isTickerChar, Bool.or_eq_true] at h
  rcases h with h | h
  · simp only [Char.isUpper, Bool.and_eq_true, decide_eq_true_eq, UInt32.le_def,
      BitVec.le_def] at h
    have h65 : ((65 : UInt32).toBitVec).toNat = 65 := rfl
    have h90 : ((90 : UInt32).toBitVec).toNat = 90 := rfl
    unfold Char.toUpper
    rw [if_neg]
    simp only [Char.toNat, UInt32.toNat] at *
    omega
  · simp only [Char.isDigit, Bool.and_eq_true, decide_eq_true_eq, UInt32.le_def,
      BitVec.le_def] at h
    have h48 : ((48 : UInt32).toBitVec).toNat = 48 := rfl
    have h57 : ((57 : UInt32).toBitVec).toNat = 57 := rfl
    unfold Char.toUpper
    rw [if_neg]
    simp only [Char.toNat, UInt32.toNat] at *
    omega

theorem tickerChar_not_space (c : Char) (h : isTickerChar c = true) :
    isPySpace c = false := by
  cases hsp : isPySpace c
  · rfl
  · exfalso
    rw [isPySpace] at hsp
    simp only [Bool.or_eq_true, decide_eq_true_eq] at hsp
    rcases hsp with ((((rfl | rfl) | rfl) | rfl) | rfl) | rfl <;>
      exact absurd h (by decide)

theorem tickerChar_ne_lf (c : Char) (h : isTickerChar c = true) : c ≠ '\n' := by
  rintro rfl
  exact absurd h (by decide)

theorem tickerChar_ne_cr (c : Char) (h : isTickerChar c = true) : c ≠ '\r' := by
  rintro rfl
  exact absurd h (by decide)

theorem dropWhile_eq_self_of_all (p : Char → Bool) (t : List Char)
    (h : ∀ c ∈ t, p c = false) : t.dropWhile p = t := by
  cases t with
  | nil => rfl
  | cons a t =>
    rw [List.dropWhile_cons, if_neg]
    simp [h a (by simp)]

theorem dropWhile_append_pos (p : Char → Bool) (x y : List Char)
    (hx : x.dropWhile p ≠ []) : (x ++ y).dropWhile p = x.dropWhile p ++ y := by
  rw [List.dropWhile_append, if_neg]
  simpa [List.isEmpty_iff] using hx

theorem stripBack_append (x y : List Char) (hy : stripBack y ≠ []) :
    stripBack (x ++ y) = x ++ stripBack y := by
  unfold stripBack at *
  rw [List.reverse_append, dropWhile_append_pos]
  · rw [List.reverse_append, List.reverse_reverse]
  · intro h
    apply hy
    rw [h]
    rfl

theorem stripBack_single_append (t : List Char) (ht : validTicker t) :
    stripBack (t ++ ['\n']) = t := by
  unfold stripBack
  rw [List.reverse_append]
  show (List.dropWhile isPySpace ('\n' :: t.reverse)).reverse = t
  rw [List.dropWhile_cons, if_pos (by decide)]
  rw [dropWhile_eq_self_of_all]
  · exact List.reverse_reverse t
  · intro c hc
    exact tickerChar_not_space c (ht.2 c (List.mem_reverse.mp hc))

theorem save_cons (t : List Char) (l : List (List Char)) :
    save_tickers (t :: l) = t ++ '\n' :: save_tickers l := rfl

theorem joinNL_ne_nil (l : List (List Char)) (hl : l ≠ [])
    (hv : ∀ t ∈ l, validTicker t) : joinNL l ≠ [] := by
  cases l with
  | nil => exact absurd rfl hl
  | cons t rest =>
    cases rest with
    | nil => exact (hv t (by simp)).1
    | cons t2 r2 =>
      show t ++ '\n' :: joinNL (t2 :: r2) ≠ []
      simp

theorem stripBack_save (l : List (List Char)) (hv : ∀ t ∈ l, validTicker t)
    (hl : l ≠ []) : stripBack (save_tickers l) = joinNL l := by
  induction l with
  | nil => exact absurd rfl hl
  | cons t rest ih =>
    cases rest with
    | nil => exact stripBack_single_append t (hv t (by simp))
    | cons t2 r2 =>
      have hv2 : ∀ x ∈ t2 :: r2, validTicker x :=
        fun x hx => hv x (List.mem_cons_of_mem t hx)
      have hrec : stripBack (save_tickers (t2 :: r2)) = joinNL (t2 :: r2) :=
        ih hv2 (by simp)
      have hsplit : save_tickers (t :: t2 :: r2) =
          (t ++ ['\n']) ++ save_tickers (t2 :: r2) := by
        rw [save_cons, List.append_assoc, List.singleton_append]
      rw [hsplit, stripBack_append]
      · rw [hrec, List.append_assoc, List.singleton_append]
        rfl
      · rw [hrec]
        exact joinNL_ne_nil (t2 :: r2) (by simp) hv2

theorem pyStrip_save (l : List (List Char)) (hv : ∀ t ∈ l, validTicker t)
    (hl : l ≠ []) : pyStrip (save_tickers l) = joinNL l := by
  have hfront : (save_tickers l).dropWhile isPySpace = save_tickers l := by
    cases l with
    | nil => rfl
    | cons t rest =>
      obtain ⟨c, t0, rfl⟩ : ∃ c t0, t = c :: t0 := by
        rcases ht : t with - | ⟨c, t0⟩
        · exact absurd rfl ((ht ▸ hv t (by simp)).1)
        · exact ⟨c, t0, rfl⟩
      rw [save_cons]
      simp only [List.cons_append, List.dropWhile_cons]
      rw [if_neg]
      simp [tickerChar_not_space c ((hv (c :: t0) (by simp)).2 c (by simp))]
  calc pyStrip (save_tickers l)
      = stripBack ((save_tickers l).dropWhile isPySpace) := rfl
    _ = stripBack (save_tickers l) := by rw [hfront]
    _ = joinNL l := stripBack_save l hv hl

theorem pySplitlines_cons_other (c : Char) (rest : List Char) (h1 : c ≠ '\n')
    (h2 : c ≠ '\r') :
    pySplitlines (c :: rest) = match pySplitlines rest with
      | [] => [[c]]
      | l :: ls => (c :: l) :: ls := by
  rw [pySplitlines.eq_def]
  split <;> rename_i heq
  · exact absurd heq (by simp)
  · injection heq with hc hr
    exact absurd hc h1
  · injection heq with hc hr
    exact absurd hc h2
  · injection heq with hc hr
    exact absurd hc h2
  · injection heq with hc hr
    subst hc
    subst hr
    rfl

theorem pySplitlines_append_line (t s : List Char)
    (hv : ∀ c ∈ t, isTickerChar c = true) :
    pySplitlines (t ++ '\n' :: s) = t :: pySplitlines s := by
  induction t with
  | nil => rfl
  | cons c t ih =>
    rw [List.cons_append, pySplitlines_cons_other c _
      (tickerChar_ne_lf c (hv c (by simp))) (tickerChar_ne_cr c (hv c (by simp)))]
    rw [ih (fun x hx => hv x (by simp [hx]))]

theorem pySplitlines_single (t : List Char) (ht : t ≠ [])
    (hv : ∀ c ∈ t, isTickerChar c = true) : pySplitlines t = [t] := by
  induction t with
  | nil => exact absurd rfl ht
  | cons c t ih =>
    rw [pySplitlines_cons_other c t
      (tickerChar_ne_lf c (hv c (by simp))) (tickerChar_ne_cr c (hv c (by simp)))]
    cases t with
    | nil => rfl
    | cons c2 t2 =>
      rw [ih (by simp) (fun x hx => hv x (by simp [hx]))]

theorem pySplitlines_joinNL (l : List (List Char))
    (hv : ∀ t ∈ l, validTicker t) (hl : l ≠ []) :
    pySplitlines (joinNL l) = l := by
  induction l with
  | nil => exact absurd rfl hl
  | cons t rest ih =>
    cases rest with
    | nil =>
      have h := hv t (by simp)
      exact pySplitlines_single t h.1 h.2
    | cons t2 r2 =>
      show pySplitlines (t ++ '\n' :: joinNL (t2 :: r2)) = t :: t2 :: r2
      rw [pySplitlines_append_line t _ (hv t (by simp)).2]
      rw [ih (fun x hx => hv x (List.mem_cons_of_mem t hx)) (by simp)]

theorem pyUpper_valid (t : List Char) (hv : ∀ c ∈ t, isTickerChar c = true) :
    pyUpper t = t := by
  induction t with
  | nil => rfl
  | cons c t ih =>
    rw [pyUpper, List.map_cons, tickerChar_toUpper c (hv c (by simp))]
    rw [show List.map Char.toUpper t = pyUpper t from rfl,
      ih (fun x hx => hv x (by simp [hx]))]

theorem pyStrip_valid (t : List Char) (hv : ∀ c ∈ t, isTickerChar c = true) :
    pyStrip t = t := by
  have hall : ∀ c ∈ t, isPySpace c = false :=
    fun c hc => tickerChar_not_space c (hv c hc)
  show ((t.dropWhile isPySpace).reverse.dropWhile isPySpace).reverse = t
  rw [dropWhile_eq_self_of_all _ _ hall]
  rw [dropWhile_eq_self_of_all _ _ (fun c hc => hall c (List.mem_reverse.mp hc))]
  exact List.reverse_reverse t

theorem foldl_loadStep (l : List (List Char)) (acc : List (List Char))
    (hv : ∀ t ∈ l, validTicker t) (hacc : ∀ t ∈ l, t ∉ acc)
    (hnd : l.Nodup) : l.foldl loadStep acc = acc ++ l := by
  induction l generalizing acc with
  | nil => simp
  | cons t rest ih =>
    obtain ⟨htr, hndr⟩ := List.nodup_cons.mp hnd
    rw [List.foldl_cons]
    have hstep : loadStep acc t = acc ++ [t] := by
      simp only [loadStep]
      rw [pyStrip_valid t (hv t (by simp)).2, pyUpper_valid t (hv t (by simp)).2]
      rw [if_pos]
      exact ⟨(hv t (by simp)).1, hacc t (by simp)⟩
    have hih := ih (acc ++ [t]) (fun x hx => hv x (by simp [hx]))
      (fun x hx => by
        rw [List.mem_append]
        rintro (hxa | hxt)
        · exact hacc x (by simp [hx]) hxa
        · simp only [List.mem_singleton] at hxt
          subst hxt
          exact htr hx) hndr
    rw [hstep, hih, List.append_assoc, List.singleton_append]

/-- C6: persisting a sequence of distinct well-formed ticker symbols
and loading it back into a fresh store reproduces exactly the same
ordered sequence. -/
theorem persist_load_roundtrip (l : List (List Char))
    (hv : ∀ t ∈ l, validTicker t) (hnd : l.Nodup) :
    load_tickers (some (save_tickers l)) [] = l := by
  cases l with
  | nil => rfl
  | cons t rest =>
    show (pySplitlines (pyStrip (save_tickers (t :: rest)))).foldl loadStep [] =
      t :: rest
    rw [pyStrip_save _ hv (by simp)]
    rw [pySplitlines_joinNL _ hv (by simp)]
    rw [foldl_loadStep _ [] hv (by simp) hnd]
    rfl

/-- C6 witness at a concrete two-symbol watchlist. -/
theorem persist_load_roundtrip_witness :
    load_tickers (some (save_tickers [['A', 'B'], ['C', '1']])) [] =
      [['A', 'B'], ['C', '1']] :=
  persist_load_roundtrip [['A', 'B'], ['C', '1']]
    (by intro t ht; fin_cases ht <;> exact ⟨by decide, by decide⟩) (by decide)

/-- C3 counterexample: after a load of a file holding a lower-case
line, the in-memory sequence holds the normalised symbol but the file
still holds the original bytes, so memory and file disagree. -/
theorem store_consistency_counterexample :
    (op_load { mem := [], file := some ['a', 'a', 'p', 'l', '\n'] }).mem =
      [['A', 'A', 'P', 'L']] ∧
    ¬ consistent (op_load { mem := [], file := some ['a', 'a', 'p', 'l', '\n'] }) := by
  constructor
  · decide
  · show (op_load { mem := [], file := some ['a', 'a', 'p', 'l', '\n'] }).file ≠
      some (save_tickers
        (op_load { mem := [], file := some ['a', 'a', 'p', 'l', '\n'] }).mem)
    decide

/-- C3 amended: the memory-file consistency invariant holds after
persist, after clear, and after an add that appends; an add that
rejects its input leaves the state unchanged; a load never writes the
file, so after a load only the in-memory sequence has changed and
consistency is not restored. -/
theorem store_consistency_amended (s : StoreState) (input : List Char) :
    consistent (op_persist s) ∧
    consistent (clear_tickers s) ∧
    ((fetch_data input s).2 = AddResult.added →
      consistent (fetch_data input s).1) ∧
    ((fetch_data input s).2 ≠ AddResult.added → (fetch_data input s).1 = s) ∧
    (op_load s).file = s.file := by
  refine ⟨rfl, rfl, ?_, ?_, rfl⟩
  · intro h
    by_cases h1 : pyUpper (pyStrip input) = []
    · simp [fetch_data, h1] at h
    · by_cases h2 : pyUpper (pyStrip input) ∈ s.mem
      · simp [fetch_data, h1, h2] at h
      · show (fetch_data input s).1.file =
          some (save_tickers (fetch_data input s).1.mem)
        simp [fetch_data, h1, h2]
  · intro h
    by_cases h1 : pyUpper (pyStrip input) = []
    · simp [fetch_data, h1]
    · by_cases h2 : pyUpper (pyStrip input) ∈ s.mem
      · simp [fetch_data, h1, h2]
      · exfalso
        apply h
        simp [fetch_data, h1, h2]

/-- C3 amended witness: consistency after a concrete persist and after
a concrete appending add. -/
theorem store_consistency_amended_witness :
    consistent (op_persist { mem := [['A']], file := none }) ∧
    consistent (fetch_data ['m', 's', 'f', 't']
      { mem := [], file := some [] }).1 := by
  refine ⟨(store_consistency_amended { mem := [['A']], file := none } []).1, ?_⟩
  exact (store_consistency_amended { mem := [], file := some [] }
    ['m', 's', 'f', 't']).2.2.1 (by decide)

/-- C4 counterexample: a non-empty persisted watchlist without the
seed symbol still gets the seed appended at startup, so the startup
sequence is not the loaded sequence. -/
theorem startup_seed_counterexample :
    load_tickers (some ['M', 'S', 'F', 'T', '\n']) [] = [['M', 'S', 'F', 'T']] ∧
    (startup (some ['M', 'S', 'F', 'T', '\n'])).mem =
      [['M', 'S', 'F', 'T'], ['A', 'A', 'P', 'L']] ∧
    (startup (some ['M', 'S', 'F', 'T', '\n'])).mem ≠
      load_tickers (some ['M', 'S', 'F', 'T', '\n']) [] := by
  refine ⟨by decide, by decide, by decide⟩

/-- C4 amended: the seed ticker is appended (and the list persisted)
exactly when the seed is absent from the loaded sequence; when the
seed was loaded, the startup memory is exactly the loaded sequence
and the file is untouched. -/
theorem startup_seed_amended (file : Option (List Char)) :
    (aapl ∈ load_tickers file [] →
      (startup file).mem = load_tickers file [] ∧ (startup file).file = file) ∧
    (aapl ∉ load_tickers file [] →
      (startup file).mem = load_tickers file [] ++ [aapl] ∧
      (startup file).file =
        some (save_tickers (load_tickers file [] ++ [aapl]))) := by
  constructor <;> intro h <;> simp [startup, h]

/-- C4 amended witness: a persisted watchlist already holding the seed
is reproduced exactly, with no second seed appended. -/
theorem startup_seed_amended_witness :
    (startup (some ['A', 'A', 'P', 'L', '\n'])).mem =
      load_tickers (some ['A', 'A', 'P', 'L', '\n']) [] :=
  ((startup_seed_amended (some ['A', 'A', 'P', 'L', '\n'])).1 (by decide)).1

theorem count_eq_one_of_nodup_mem (m : List (List Char)) (x : List Char)
    (hnd : m.Nodup) (hm : x ∈ m) : m.count x = 1 := by
  induction m with
  | nil => simp at hm
  | cons a m ih =>
    obtain ⟨ham, hndm⟩ := List.nodup_cons.mp hnd
    rcases List.mem_cons.mp hm with rfl | hm2
    · rw [List.count_cons_self, List.count_eq_zero_of_not_mem ham]
    · have hne : x ≠ a := by
        intro he
        subst he
        exact absurd hm2 ham
      rw [List.count_cons_of_ne hne m, ih hndm hm2]

/-- C5: the add operation normalises its input by trimming and
upper-casing; blank input is rejected without change, a present
symbol leaves the watchlist unchanged and reports already-present
(the symbol staying exactly once), and a new symbol is appended so
that it occurs exactly once. -/
theorem add_operation (s : StoreState) (input : List Char)
    (hnd : s.mem.Nodup) :
    (pyUpper (pyStrip input) = [] →
      fetch_data input s = (s, AddResult.emptyInput)) ∧
    (pyUpper (pyStrip input) ≠ [] → pyUpper (pyStrip input) ∈ s.mem →
      fetch_data input s = (s, AddResult.alreadyPresent) ∧
      s.mem.count (pyUpper (pyStrip input)) = 1) ∧
    (pyUpper (pyStrip input) ≠ [] → pyUpper (pyStrip input) ∉ s.mem →
      (fetch_data input s).1.mem = s.mem ++ [pyUpper (pyStrip input)] ∧
      (fetch_data input s).2 = AddResult.added ∧
      (fetch_data input s).1.mem.count (pyUpper (pyStrip input)) = 1) := by
  refine ⟨?_, ?_, ?_⟩
  · intro h1
    simp [fetch_data, h1]
  · intro h1 h2
    exact ⟨by simp [fetch_data, h1, h2], count_eq_one_of_nodup_mem s.mem _ hnd h2⟩
  · intro h1 h2
    have hmem : (fetch_data input s).1.mem =
        s.mem ++ [pyUpper (pyStrip input)] := by
      simp [fetch_data, h1, h2]
    refine ⟨hmem, by simp [fetch_data, h1, h2], ?_⟩
    rw [hmem, List.count_append, List.count_eq_zero_of_not_mem h2]
    simp [List.count_singleton]

/-- C5 witness: adding a lower-case variant of a present symbol
reports already-present and leaves the state unchanged; adding a new
symbol appends its normalised form. -/
theorem add_operation_witness :
    fetch_data ['a', 'a', 'p', 'l', ' ']
      { mem := [['A', 'A', 'P', 'L']],
        file := some (save_tickers [['A', 'A', 'P', 'L']]) } =
      ({ mem := [['A', 'A', 'P', 'L']],
         file := some (save_tickers [['A', 'A', 'P', 'L']]) },
       AddResult.alreadyPresent) ∧
    (fetch_data ['m', 's', 'f', 't'] { mem := [], file := some [] }).1.mem =
      [['M', 'S', 'F', 'T']] := by
  constructor
  · exact ((add_operation
      { mem := [['A', 'A', 'P', 'L']],
        file := some (save_tickers [['A', 'A', 'P', 'L']]) }
      ['a', 'a', 'p', 'l', ' '] (by decide)).2.1 (by decide) (by decide)).1
  · have h := ((add_operation { mem := [], file := some [] }
      ['m', 's', 'f', 't'] (by decide)).2.2 (by decide) (by decide)).1
    rw [h]
    decide

end FinScraper
